import Mathlib

/-!
Verification of the Hybrid-Retrieval-Augmented-Generation frontend core.

The definitions below are a shallow embedding of the TypeScript sources:
- `hrag-frontend/types/index.ts` (data model),
- `hrag-frontend/lib/api.ts` (`HRAGApiClient.chatStream` and friends),
- `components/copilot/chat-interface.tsx` (`handleStep`, `handleComplete`,
  `handleSendMessage`),
- `components/copilot/diagnostic-card.tsx` (`DiagnosticCard`),
- `components/knowledge/*` (`handleResolve`).

JavaScript values that may be `undefined` are embedded as `Option`;
JavaScript truthiness tests on optional strings treat both `undefined`
and the empty string as false, and the embedding mirrors that exactly.
Floating-point scores are embedded as rationals: every comparison the
code performs on them is a plain order comparison against a literal,
which rationals model exactly.

The backend Retrieval Fusion Engine is not part of the frontend sources;
it is modelled from the spec (see `FusionConfig` onwards).
-/

namespace HRAG

/-- Status union of a streaming reasoning step
(`'pending' | 'active' | 'completed'` in `types/index.ts`). -/
inductive StepStatus where
  | pending
  | active
  | completed
deriving DecidableEq

/-- `ReasoningStep` from `types/index.ts`. -/
structure ReasoningStep where
  id : String
  label : String
  status : StepStatus
deriving DecidableEq

/-- Severity union of a diagnostic step (`'info' | 'warning' | 'error'`). -/
inductive DiagStatus where
  | info
  | warning
  | error
deriving DecidableEq

/-- Payload kind union of `raw_content.type`
(`'log' | 'graph' | 'markdown'`). -/
inductive RawKind where
  | log
  | graph
  | markdown
deriving DecidableEq

/-- `DiagnosticStep` from `types/index.ts`.  The `unknown` payload `data`
is embedded as a string; the optional booleans `is_root` / `is_parallel`
are embedded as `Bool` (an absent field and `false` behave identically
under the truthiness tests the components perform). -/
structure DiagnosticStep where
  id : String
  source : String
  title : String
  detail : String
  status : DiagStatus
  is_root : Bool
  is_parallel : Bool
  rawKind : RawKind
  rawData : String
deriving DecidableEq

/-- `DiagnosticResponse` from `types/index.ts`. -/
structure DiagnosticResponse where
  path : List DiagnosticStep
  suggestion : String
  confidence : ℚ
deriving DecidableEq

/-- Role union of a chat message (`'user' | 'assistant' | 'system'`). -/
inductive Role where
  | user
  | assistant
  | system
deriving DecidableEq

/-- Display kind of a chat message (`'text' | 'reasoning' | 'diagnostic'`). -/
inductive MsgKind where
  | text
  | reasoning
  | diagnostic
deriving DecidableEq

/-- `Message` from `types/index.ts` (fields the chat interface populates). -/
structure Message where
  id : ℤ
  role : Role
  content : String
  timestamp : String
  kind : Option MsgKind := none
  diagnostic : Option DiagnosticResponse := none
deriving DecidableEq

/-- `StreamEvent` from `lib/api.ts`.  The `type` discriminator is kept as a
string because the dispatch code compares it against string literals and
ignores every other value. -/
structure StreamEvent where
  type : String
  step : Option ReasoningStep := none
  thread_id : Option String := none
  response : Option String := none
  intent : Option String := none
  diagnostic : Option DiagnosticResponse := none
  clarification_question : Option String := none
  message : Option String := none
deriving DecidableEq

/-- `ChatRequest` from `lib/api.ts`. -/
structure ChatRequest where
  query : String
  thread_id : Option String := none
  feedback : Option String := none
deriving DecidableEq

/-- `handleStep` from `chat-interface.tsx` (the updater passed to
`setStreamingSteps`): if some displayed step has the incoming step's id,
every step with that id is replaced by the incoming step (`prev.map`),
otherwise the incoming step is appended. -/
def handleStep (prev : List ReasoningStep) (step : ReasoningStep) :
    List ReasoningStep :=
  if prev.any (fun s => s.id = step.id) then
    prev.map (fun s => if s.id = step.id then step else s)
  else
    prev ++ [step]

/-- The local component state of `ChatInterface` in `chat-interface.tsx`
that `handleSendMessage` / `handleComplete` read and write. -/
structure ChatState where
  input : String
  messages : List Message
  isLoading : Bool
  threadId : Option String
  streamingSteps : List ReasoningStep
  isStreaming : Bool
deriving DecidableEq

/-- JavaScript truthiness of an optional string: `undefined`, `null` and
`""` are falsy.  Used for `threadId || undefined`, `if (event.thread_id)`,
`event.response || ...` and `else if (event.clarification_question)`. -/
def optTruthy (s : Option String) : Bool :=
  match s with
  | none => false
  | some t => !(t = "")

/-- `s || dflt` on an optional string: the string itself when truthy,
otherwise the default. -/
def orElseStr (s : Option String) (dflt : String) : String :=
  match s with
  | none => dflt
  | some t => if t = "" then dflt else t

/-- The synchronous prefix of `handleSendMessage` in `chat-interface.tsx`:
the guard `if (!input.trim() || isLoading) return;`, the append of the
user message, and the state resets before `apiClient.chatStream` is
called.  Returns the updated state together with the `ChatRequest` the
call issues (`none` when the guard returns early and no request is
issued).  `nowId` stands for `Date.now()` and `ts` for the formatted
timestamp. -/
def handleSendMessage (st : ChatState) (nowId : ℤ) (ts : String) :
    ChatState × Option ChatRequest :=
  if st.input.trim = "" ∨ st.isLoading then
    (st, none)
  else
    let userMsg : Message :=
      { id := nowId, role := .user, content := st.input, timestamp := ts }
    let st' : ChatState :=
      { st with
        messages := st.messages ++ [userMsg]
        input := ""
        isLoading := true
        isStreaming := true
        streamingSteps := [] }
    (st', some { query := st.input
                 thread_id := if optTruthy st.threadId then st.threadId else none })

/-- `handleComplete` from `chat-interface.tsx`: clears the streaming
display, stores `event.thread_id` when truthy, appends exactly one
assistant message discriminated on the event payload (diagnostic, then
clarification, then plain text), and clears `isLoading`. -/
def handleComplete (st : ChatState) (event : StreamEvent) (nowId : ℤ)
    (ts : String) : ChatState :=
  let st1 : ChatState := { st with isStreaming := false, streamingSteps := [] }
  let st2 : ChatState :=
    if optTruthy event.thread_id then { st1 with threadId := event.thread_id }
    else st1
  let msg : Message :=
    match event.diagnostic with
    | some d =>
      { id := nowId + 1, role := .assistant, kind := some .diagnostic
        content := orElseStr event.response "", diagnostic := some d
        timestamp := ts }
    | none =>
      if optTruthy event.clarification_question then
        { id := nowId + 1, role := .assistant
          content := (event.clarification_question).getD ""
          timestamp := ts }
      else
        { id := nowId + 1, role := .assistant
          content := orElseStr event.response "No response received."
          timestamp := ts }
  { st2 with messages := st2.messages ++ [msg], isLoading := false }

/-- `GardenerTask` from `types/index.ts` (frontend shape, numeric id). -/
structure GardenerTask where
  id : ℤ
  isConflict : Bool
  entityName : String
  source : String
  confidence : ℚ
  desc : Option String := none
deriving DecidableEq

/-- The pending-list update `setTasks(prev => prev.filter(t => t.id !== id))`
performed by `handleResolve` in `knowledge-interface.tsx` for both the
`approve` and the `reject` action. -/
def handleResolve (tasks : List GardenerTask) (id : ℤ) : List GardenerTask :=
  tasks.filter (fun t => t.id ≠ id)

/-- `DiagnosticCard`'s choice of the root node:
`diagnostic.path.find(p => p.is_root)`. -/
def rootNode (d : DiagnosticResponse) : Option DiagnosticStep :=
  d.path.find? (fun p => p.is_root)

/-- `DiagnosticCard`'s choice of the corroborating leaves:
`diagnostic.path.filter(p => p.is_parallel)`. -/
def leafNodes (d : DiagnosticResponse) : List DiagnosticStep :=
  d.path.filter (fun p => p.is_parallel)

/-- The confidence badge in `DiagnosticCard`:
`diagnostic.confidence > 0.8 ? 'High Confidence' : 'Medium Confidence'`. -/
def confidenceLabel (c : ℚ) : String :=
  if c > 8 / 10 then "High Confidence" else "Medium Confidence"

/-- One observable callback invocation made by `chatStream`. -/
inductive Callback where
  | onStep (s : ReasoningStep)
  | onComplete (e : StreamEvent)
  | onError (msg : String)
deriving DecidableEq

/-- The callbacks one parsed frame triggers, from the dispatch in
`chatStream`: `reasoning` frames with a step go to `onStep`, `complete`
frames to `onComplete`, `error` frames to `onError` with
`event.message || 'Unknown error'`; any other `type` triggers nothing. -/
def dispatch (ev : StreamEvent) : List Callback :=
  if ev.type = "reasoning" then
    match ev.step with
    | some s => [.onStep s]
    | none => []
  else if ev.type = "complete" then [.onComplete ev]
  else if ev.type = "error" then [.onError (orElseStr ev.message "Unknown error")]
  else []

/-- The inner `for (const line of lines)` loop of `chatStream`, abstracted
over the JSON decoder `parse` (a frame whose JSON fails to parse yields
`none` and is skipped).  Returns the callbacks triggered and whether the
`[DONE]` sentinel was reached (the `return` in the source). -/
def processLines (parse : String → Option StreamEvent) :
    List String → List Callback × Bool
  | [] => ([], false)
  | line :: rest =>
    if line.startsWith "data: " then
      if (line.drop 6).trim = "[DONE]" then ([], true)
      else
        match parse ((line.drop 6).trim) with
        | some ev =>
          (dispatch ev ++ (processLines parse rest).1, (processLines parse rest).2)
        | none => processLines parse rest
    else processLines parse rest

/-- The chunk/buffer loop of `chatStream`: each decoded chunk is appended
to the buffer, the buffer is split at newlines, the final piece
(`lines.pop()`) becomes the new buffer, and the complete lines are
processed.  Processing stops early when a chunk's lines reach the
`[DONE]` sentinel. -/
def streamChunks (parse : String → Option StreamEvent) (buffer : String) :
    List String → List Callback × Bool
  | [] => ([], false)
  | chunk :: rest =>
    let parts := (buffer ++ chunk).splitOn "\n"
    let r := processLines parse parts.dropLast
    if r.2 then (r.1, true)
    else
      let r2 := streamChunks parse (parts.getLastD "") rest
      (r.1 ++ r2.1, r2.2)

/-- How the transport behaved for one `chatStream` call: the `fetch`
itself rejected, the response was non-OK, the response had no body, or a
body delivered some chunks and then either ended cleanly
(`readErr = none`) or a read rejected (`readErr = some msg`). -/
inductive FetchOutcome where
  | fetchError (msg : String)
  | notOk (status : ℕ)
  | noBody
  | body (chunks : List String) (readErr : Option String)
deriving DecidableEq

/-- `HRAGApiClient.chatStream` from `lib/api.ts`, as the sequence of
callbacks it invokes for a given transport outcome.  Every throw inside
the `try` block (failed fetch, `API Error: <status>` on a non-OK
response, `No response body`, a rejected read) lands in the single
`catch`, which invokes `onError` once; reaching `[DONE]` returns before
any further read, so a read error after the sentinel is never observed.
The function is total: `chatStream` itself never throws. -/
def chatStream (parse : String → Option StreamEvent) :
    FetchOutcome → List Callback
  | .fetchError msg => [.onError msg]
  | .notOk status => [.onError ("API Error: " ++ toString status)]
  | .noBody => [.onError "No response body"]
  | .body chunks readErr =>
    let r := streamChunks parse "" chunks
    if r.2 then r.1
    else
      match readErr with
      | some msg => r.1 ++ [.onError msg]
      | none => r.1

/-- The string-literal union of `RetrievalResult.source` in
`types/index.ts`: `'graph' | 'vector' | 'mcp_tool'`. -/
inductive SourceTag where
  | graph
  | vector
  | mcp_tool
deriving DecidableEq

/-- The string literal each `SourceTag` constructor stands for. -/
def SourceTag.str : SourceTag → String
  | .graph => "graph"
  | .vector => "vector"
  | .mcp_tool => "mcp_tool"

/-- The set of source-tag strings admitted by the type in
`types/index.ts`. -/
def retrievalSourceTags : List String := ["graph", "vector", "mcp_tool"]

/-- Modelled from the spec: the set of source-tag strings §3 of the spec
claims for `RetrievalResult` (`graph | vector | live`).  Defined from the
spec's words only, to be compared with `retrievalSourceTags` from the
source. -/
def specSourceTags : List String := ["graph", "vector", "live"]

/-- `RetrievalResult` from `types/index.ts`.  `metadata` is
`Record<string, unknown>`, embedded as a key/value list; the type places
no bound on `confidence` beyond being a number. -/
structure RetrievalResult where
  source : SourceTag
  title : String
  content : String
  metadata : List (String × String)
  confidence : ℚ
  raw_data : Option String := none
deriving DecidableEq

/-- Modelled from the spec: the three retrieval sources of §4.3
(the backend Retrieval Fusion Engine is not among the frontend sources). -/
inductive FusionSource where
  | graph
  | vector
  | live
deriving DecidableEq

/-- Modelled from the spec: one raw result a source returned, carrying
its native score. -/
structure SourceResult where
  title : String
  content : String
  score : ℚ
deriving DecidableEq

/-- Modelled from the spec: what one source contributed to a turn — its
result list and its partial-failure flag (§4.3: a timed-out or erroring
source contributes zero results and sets the flag). -/
structure SourceInput where
  results : List SourceResult
  failed : Bool
deriving DecidableEq

/-- Modelled from the spec: the configurable fusion parameters of §4.3
(per-source weights and the maximum result count). -/
structure FusionConfig where
  wGraph : ℚ
  wVector : ℚ
  wLive : ℚ
  maxResults : ℕ
deriving DecidableEq

/-- Modelled from the spec: the default parameters of §4.3 — weights
graph 0.4, vector 0.35, live 0.25 and a maximum of 10 results. -/
def defaultFusionConfig : FusionConfig :=
  { wGraph := 2 / 5, wVector := 7 / 20, wLive := 1 / 4, maxResults := 10 }

/-- The weight a configuration assigns to a source. -/
def FusionConfig.weight (cfg : FusionConfig) : FusionSource → ℚ
  | .graph => cfg.wGraph
  | .vector => cfg.wVector
  | .live => cfg.wLive

/-- Modelled from the spec: tie-break priority of §3
(graph > vector > live), smaller is higher priority. -/
def sourcePriority : FusionSource → ℕ
  | .graph => 0
  | .vector => 1
  | .live => 2

/-- The largest native score in a source's result list (0 for an empty
list). -/
def maxScore (l : List SourceResult) : ℚ :=
  l.foldr (fun r m => max r.score m) 0

/-- Modelled from the spec: normalization of a native score to `[0,1]`
(§4.3).  The exact normalization is an implementation-tunable parameter
(§9, open question); this model divides by the source's largest score
and clamps into `[0,1]`. -/
def normScore (hi s : ℚ) : ℚ :=
  if hi ≤ 0 then 0 else min 1 (max 0 (s / hi))

/-- Modelled from the spec: one fused, ranked result — its source tag,
combined score, and its insertion index within its source's list (the
final tie-break of §3). -/
structure RankedResult where
  source : FusionSource
  title : String
  content : String
  combined : ℚ
  idx : ℕ
deriving DecidableEq

/-- Modelled from the spec: the total ranking order of §3 — descending
combined score, ties broken by source priority graph > vector > live,
then by insertion order. -/
def rankLE (a b : RankedResult) : Bool :=
  decide (b.combined < a.combined ∨
    (a.combined = b.combined ∧
      (sourcePriority a.source < sourcePriority b.source ∨
        (sourcePriority a.source = sourcePriority b.source ∧ a.idx ≤ b.idx))))

/-- `rankLE` as a relation. -/
def rankRel (a b : RankedResult) : Prop := rankLE a b = true

instance : DecidableRel rankRel := fun a b =>
  inferInstanceAs (Decidable (rankLE a b = true))

instance : IsTotal RankedResult rankRel := by
  constructor
  intro a b
  simp only [rankRel, rankLE, decide_eq_true_eq]
  rcases lt_trichotomy a.combined b.combined with h | h | h
  · exact Or.inr (Or.inl h)
  · rcases Nat.lt_trichotomy (sourcePriority a.source) (sourcePriority b.source)
      with h2 | h2 | h2
    · exact Or.inl (Or.inr ⟨h, Or.inl h2⟩)
    · rcases Nat.le_total a.idx b.idx with h3 | h3
      · exact Or.inl (Or.inr ⟨h, Or.inr ⟨h2, h3⟩⟩)
      · exact Or.inr (Or.inr ⟨h.symm, Or.inr ⟨h2.symm, h3⟩⟩)
    · exact Or.inr (Or.inr ⟨h.symm, Or.inl h2⟩)
  · exact Or.inl (Or.inl h)

instance : IsTrans RankedResult rankRel := by
  constructor
  intro a b c hab hbc
  simp only [rankRel, rankLE, decide_eq_true_eq] at hab hbc ⊢
  rcases hab with hab | ⟨hab, pab⟩
  · rcases hbc with hbc | ⟨hbc, _⟩
    · exact Or.inl (lt_trans hbc hab)
    · exact Or.inl (hbc ▸ hab)
  · rcases hbc with hbc | ⟨hbc, pbc⟩
    · exact Or.inl (hab ▸ hbc)
    · refine Or.inr ⟨hab.trans hbc, ?_⟩
      rcases pab with pab | ⟨pab, iab⟩ <;> rcases pbc with pbc | ⟨pbc, ibc⟩
      · exact Or.inl (Nat.lt_trans pab pbc)
      · exact Or.inl (pbc ▸ pab)
      · exact Or.inl (pab ▸ pbc)
      · exact Or.inr ⟨pab.trans pbc, Nat.le_trans iab ibc⟩

/-- Insertion sort by `rankLE` (descending combined score, ties broken by
source priority then insertion order). -/
def sortRanked (l : List RankedResult) : List RankedResult :=
  List.insertionSort rankRel l

/-- Modelled from the spec: normalize and weight one source's results
(§4.3), tagging each with its source and insertion index. -/
def rankSource (w : ℚ) (src : FusionSource) (inp : SourceInput) :
    List RankedResult :=
  let hi := maxScore inp.results
  inp.results.enum.map fun p =>
    { source := src, title := p.2.title, content := p.2.content
      combined := w * normScore hi p.2.score, idx := p.1 }

/-- The best-ranked result of a given source in an already sorted list. -/
def bestOf (s : FusionSource) (sorted : List RankedResult) :
    Option RankedResult :=
  sorted.find? (fun r => r.source = s)

/-- Modelled from the spec: the diversity floor of §4.3 — for each
non-failed source that returned at least one result, its best-ranked
result. -/
def diversityFloor (g v l : SourceInput) (sorted : List RankedResult) :
    List RankedResult :=
  [(FusionSource.graph, g), (FusionSource.vector, v), (FusionSource.live, l)].filterMap
    fun p => if p.2.failed then none else bestOf p.1 sorted

/-- All three sources' results, normalized, weighted and tagged. -/
def fuseAll (cfg : FusionConfig) (g v l : SourceInput) : List RankedResult :=
  rankSource cfg.wGraph .graph g ++ rankSource cfg.wVector .vector v
    ++ rankSource cfg.wLive .live l

/-- The fused results in rank order, before capping. -/
def fuseSorted (cfg : FusionConfig) (g v l : SourceInput) :
    List RankedResult :=
  sortRanked (fuseAll cfg g v l)

/-- The diversity floor of this fusion. -/
def fuseFloor (cfg : FusionConfig) (g v l : SourceInput) :
    List RankedResult :=
  diversityFloor g v l (fuseSorted cfg g v l)

/-- The non-floor results filling the remaining capped slots, in rank
order. -/
def fuseRest (cfg : FusionConfig) (g v l : SourceInput) :
    List RankedResult :=
  ((fuseSorted cfg g v l).filter (fun r => r ∉ fuseFloor cfg g v l)).take
    (cfg.maxResults - (fuseFloor cfg g v l).length)

/-- Modelled from the spec: the Retrieval Fusion Engine's ranking of
§4.3 — normalize each source's scores to `[0,1]`, weight them, sort
descending by combined score, then cap at `cfg.maxResults` while keeping
the diversity floor (one result per non-failed source that returned
any), with the remaining slots filled in rank order. -/
def fuse (cfg : FusionConfig) (g v l : SourceInput) : List RankedResult :=
  sortRanked (fuseFloor cfg g v l ++ fuseRest cfg g v l)

/-- The guarantees §4.3 and §8 state for the fused `EvidenceSet`: sorted
by non-increasing combined score; capped at `cfg.maxResults`; at least
one result from every non-failed source that returned at least one
result (diversity floor); and every combined score is the source's
weight times a normalized score in `[0,1]`, hence within
`[0, weight]`. -/
def FusionGuarantees (cfg : FusionConfig) (g v l : SourceInput) : Prop :=
  List.Pairwise (fun a b => b.combined ≤ a.combined) (fuse cfg g v l) ∧
  (fuse cfg g v l).length ≤ cfg.maxResults ∧
  (g.failed = false → g.results ≠ [] →
    ∃ r ∈ fuse cfg g v l, r.source = FusionSource.graph) ∧
  (v.failed = false → v.results ≠ [] →
    ∃ r ∈ fuse cfg g v l, r.source = FusionSource.vector) ∧
  (l.failed = false → l.results ≠ [] →
    ∃ r ∈ fuse cfg g v l, r.source = FusionSource.live) ∧
  (∀ r ∈ fuse cfg g v l, 0 ≤ r.combined ∧ r.combined ≤ cfg.weight r.source)

theorem mem_sortRanked {r : RankedResult} {l : List RankedResult} :
    r ∈ sortRanked l ↔ r ∈ l :=
  (List.perm_insertionSort rankRel l).mem_iff

theorem length_sortRanked (l : List RankedResult) :
    (sortRanked l).length = l.length :=
  (List.perm_insertionSort rankRel l).length_eq

theorem sorted_sortRanked (l : List RankedResult) :
    (sortRanked l).Pairwise rankRel :=
  List.sorted_insertionSort rankRel l

theorem rankRel_combined {a b : RankedResult} (h : rankRel a b) :
    b.combined ≤ a.combined := by
  simp only [rankRel, rankLE, decide_eq_true_eq] at h
  rcases h with h | ⟨h, _⟩
  · exact le_of_lt h
  · exact le_of_eq h.symm

/-- C9: `DiagnosticCard` labels the recommended action `High Confidence`
iff the diagnostic's overall confidence is strictly greater than 0.8;
every confidence at most 0.8 — including exactly 0.8 — is labeled
`Medium Confidence`. -/
theorem confidenceLabel_spec (c : ℚ) :
    (confidenceLabel c = "High Confidence" ↔ 8 / 10 < c) ∧
    (c ≤ 8 / 10 → confidenceLabel c = "Medium Confidence") ∧
    confidenceLabel (8 / 10) = "Medium Confidence" := by
  refine ⟨?_, ?_, ?_⟩
  · unfold confidenceLabel
    split
    · exact iff_of_true rfl (by assumption)
    · exact iff_of_false (by decide) (by assumption)
  · intro h
    unfold confidenceLabel
    rw [if_neg (not_lt.mpr h)]
  · unfold confidenceLabel
    rw [if_neg (lt_irrefl _)]

/-- C3: resolving a task id filters out every task with that id, keeps
every other task (as a sublist, so in their original positions), is
idempotent, is a no-op when the id is absent, and under unique ids
removes exactly one task. -/
theorem handleResolve_spec (tasks : List GardenerTask) (id : ℤ) :
    (∀ t ∈ handleResolve tasks id, t.id ≠ id) ∧
    (∀ t ∈ tasks, t.id ≠ id → t ∈ handleResolve tasks id) ∧
    (handleResolve tasks id).Sublist tasks ∧
    handleResolve (handleResolve tasks id) id = handleResolve tasks id ∧
    ((∀ t ∈ tasks, t.id ≠ id) → handleResolve tasks id = tasks) ∧
    ((tasks.map (fun t => t.id)).Nodup → ∀ t0 ∈ tasks, t0.id = id →
      (handleResolve tasks id).length + 1 = tasks.length) := by
  refine ⟨?_, ?_, ?_, ?_, ?_, ?_⟩
  · intro t ht
    exact of_decide_eq_true (List.mem_filter.mp ht).2
  · intro t ht hne
    exact List.mem_filter.mpr ⟨ht, decide_eq_true hne⟩
  · exact List.filter_sublist tasks
  · unfold handleResolve
    rw [List.filter_filter]
    apply List.filter_congr
    intro t _
    cases h : decide (t.id ≠ id) <;> simp [h]
  · intro h
    exact List.filter_eq_self.mpr fun t ht => decide_eq_true (h t ht)
  · intro hnd t0 ht0 hid
    induction tasks with
    | nil => cases ht0
    | cons t ts ih =>
      simp only [List.map_cons, List.nodup_cons] at hnd
      rcases List.mem_cons.mp ht0 with rfl | hmem
      · have hall : ∀ t' ∈ ts, t'.id ≠ id := by
          intro t' ht' he
          have hm : t'.id ∈ List.map (fun t => t.id) ts :=
            List.mem_map_of_mem (fun t => t.id) ht'
          rw [he, ← hid] at hm
          exact hnd.1 hm
        have hstep : handleResolve (t0 :: ts) id = ts := by
          unfold handleResolve
          rw [List.filter_cons, if_neg (by simp [hid]),
            List.filter_eq_self.mpr fun t' ht' => decide_eq_true (hall t' ht')]
        rw [hstep]
        simp
      · have htne : t.id ≠ id := by
          intro he
          have hm : t0.id ∈ List.map (fun t => t.id) ts :=
            List.mem_map_of_mem (fun t => t.id) hmem
          rw [hid, ← he] at hm
          exact hnd.1 hm
        have hstep : handleResolve (t :: ts) id = t :: handleResolve ts id := by
          unfold handleResolve
          rw [List.filter_cons, if_pos (decide_eq_true htne)]
        rw [hstep]
        simpa using ih hnd.2 hmem

/-- C2: when the displayed list already holds the incoming step's id,
`handleStep` replaces in place — the length is unchanged, every position
keeps its step (the matching position now holding the incoming step) —
otherwise it appends; and duplicate-free ids stay duplicate-free, so one
id never yields two entries. -/
theorem handleStep_spec (prev : List ReasoningStep) (step : ReasoningStep) :
    ((∃ s ∈ prev, s.id = step.id) →
      (handleStep prev step).length = prev.length ∧
      ∀ (i : ℕ) (s : ReasoningStep), prev[i]? = some s →
        (s.id ≠ step.id → (handleStep prev step)[i]? = some s) ∧
        (s.id = step.id → (handleStep prev step)[i]? = some step)) ∧
    ((¬ ∃ s ∈ prev, s.id = step.id) → handleStep prev step = prev ++ [step]) ∧
    ((prev.map (fun s => s.id)).Nodup →
      ((handleStep prev step).map (fun s => s.id)).Nodup) := by
  have hids : ∀ l : List ReasoningStep,
      (l.map (fun s => if s.id = step.id then step else s)).map (fun s => s.id)
        = l.map (fun s => s.id) := by
    intro l
    rw [List.map_map]
    apply List.map_congr_left
    intro s _
    by_cases h : s.id = step.id <;> simp [h]
  refine ⟨?_, ?_, ?_⟩
  · intro hex
    have hany : prev.any (fun s => s.id = step.id) = true := by
      simp only [List.any_eq_true, decide_eq_true_eq]
      exact hex
    have heq : handleStep prev step
        = prev.map (fun s => if s.id = step.id then step else s) := by
      unfold handleStep
      rw [if_pos hany]
    rw [heq]
    refine ⟨List.length_map _ _, ?_⟩
    intro i s hi
    rw [List.getElem?_map, hi]
    constructor
    · intro hne
      simp [hne]
    · intro he
      simp [he]
  · intro hnex
    have hany : prev.any (fun s => s.id = step.id) = false := by
      rw [← Bool.not_eq_true, List.any_eq_true]
      simpa using hnex
    unfold handleStep
    rw [if_neg (by simp [hany])]
  · intro hnd
    unfold handleStep
    split
    · rw [hids]
      exact hnd
    · rename_i hany
      have hnotin : step.id ∉ prev.map (fun s => s.id) := by
        intro hmem
        rcases List.mem_map.mp hmem with ⟨s, hs, hsid⟩
        exact hany (List.any_eq_true.mpr ⟨s, hs, decide_eq_true hsid⟩)
      rw [List.map_append]
      exact List.Nodup.append hnd (List.nodup_singleton _)
        (by simpa [List.disjoint_singleton] using hnotin)

/-- C7: while a turn is in flight (`isLoading`), submitting is a no-op —
the state is unchanged and no request is issued; a successful submission
sets `isLoading`, appends exactly the one user message, and any further
submission before completion is again a no-op — so turns on a thread are
strictly serialized. -/
theorem handleSendMessage_serialized (st : ChatState) (nowId : ℤ)
    (ts : String) :
    (st.isLoading = true → handleSendMessage st nowId ts = (st, none)) ∧
    (∀ st' req, handleSendMessage st nowId ts = (st', some req) →
      st'.isLoading = true ∧
      st'.messages = st.messages
        ++ [{ id := nowId, role := .user, content := st.input, timestamp := ts }] ∧
      req.query = st.input ∧
      ∀ nowId2 ts2, handleSendMessage st' nowId2 ts2 = (st', none)) := by
  constructor
  · intro h
    unfold handleSendMessage
    rw [if_pos (Or.inr (by simp [h]))]
  · intro st' req h
    unfold handleSendMessage at h
    split at h
    · rw [Prod.mk.injEq] at h
      exact absurd h.2 (by simp)
    · rename_i hguard
      rw [Prod.mk.injEq] at h
      obtain ⟨h1, h2⟩ := h
      obtain rfl := Option.some.inj h2
      cases h1
      refine ⟨rfl, rfl, rfl, ?_⟩
      intro nowId2 ts2
      unfold handleSendMessage
      rw [if_pos (Or.inr rfl)]

theorem processLines_onStep (parse : String → Option StreamEvent)
    (hp : ∀ s ev, parse s = some ev → ev.type = "reasoning")
    (lines : List String) :
    ∀ c ∈ (processLines parse lines).1, ∃ s, c = Callback.onStep s := by
  induction lines with
  | nil =>
    intro c hc
    simp [processLines] at hc
  | cons line rest ih =>
    intro c hc
    rw [processLines] at hc
    split at hc
    · split at hc
      · simp at hc
      · rename_i hne
        rcases hpe : parse ((line.drop 6).trim) with _ | ev
        · rw [hpe] at hc
          exact ih c hc
        · rw [hpe] at hc
          simp only [List.mem_append] at hc
          rcases hc with hc | hc
          · have ht := hp _ _ hpe
            rw [dispatch, if_pos ht] at hc
            rcases hst : ev.step with _ | s
            · rw [hst] at hc
              simp at hc
            · rw [hst] at hc
              simp only [List.mem_singleton] at hc
              exact ⟨s, hc⟩
          · exact ih c hc
    · exact ih c hc

theorem streamChunks_onStep (parse : String → Option StreamEvent)
    (hp : ∀ s ev, parse s = some ev → ev.type = "reasoning")
    (chunks : List String) :
    ∀ buffer, ∀ c ∈ (streamChunks parse buffer chunks).1,
      ∃ s, c = Callback.onStep s := by
  induction chunks with
  | nil =>
    intro buffer c hc
    simp [streamChunks] at hc
  | cons chunk rest ih =>
    intro buffer c hc
    rw [streamChunks] at hc
    split at hc
    · exact processLines_onStep parse hp _ c hc
    · simp only [List.mem_append] at hc
      rcases hc with hc | hc
      · exact processLines_onStep parse hp _ c hc
      · exact ih _ c hc

/-- C1: `chatStream` assembles the body into newline-delimited lines with
a carry-over buffer, ignores lines not starting with `data: `, stops and
returns at the `data: [DONE]` sentinel (processing nothing further, in
the same chunk or later ones), and dispatches each parsed frame by type:
`reasoning` frames carrying a step to `onStep`, `complete` frames to
`onComplete`, `error` frames to `onError`. -/
theorem chatStream_dispatch (parse : String → Option StreamEvent)
    (line : String) (rest : List String) (ev : StreamEvent)
    (buffer chunk : String) (chunks : List String) :
    (line.startsWith "data: " = false →
      processLines parse (line :: rest) = processLines parse rest) ∧
    (line.startsWith "data: " = true → (line.drop 6).trim = "[DONE]" →
      processLines parse (line :: rest) = ([], true)) ∧
    (line.startsWith "data: " = true → (line.drop 6).trim ≠ "[DONE]" →
      parse ((line.drop 6).trim) = some ev →
      processLines parse (line :: rest)
        = (dispatch ev ++ (processLines parse rest).1,
          (processLines parse rest).2)) ∧
    (ev.type = "reasoning" → ∀ s, ev.step = some s → dispatch ev = [.onStep s]) ∧
    (ev.type = "complete" → dispatch ev = [.onComplete ev]) ∧
    (ev.type = "error" →
      dispatch ev = [.onError (orElseStr ev.message "Unknown error")]) ∧
    (streamChunks parse buffer (chunk :: chunks)
      = (let parts := (buffer ++ chunk).splitOn "\n"
         let r := processLines parse parts.dropLast
         if r.2 then (r.1, true)
         else ((r.1 ++ (streamChunks parse (parts.getLastD "") chunks).1),
           (streamChunks parse (parts.getLastD "") chunks).2))) ∧
    ((streamChunks parse "" chunks).2 = true →
      ∀ readErr, chatStream parse (.body chunks readErr)
        = (streamChunks parse "" chunks).1) := by
  refine ⟨?_, ?_, ?_, ?_, ?_, ?_, ?_, ?_⟩
  · intro h
    rw [processLines, if_neg (by simp [h])]
  · intro h1 h2
    rw [processLines, if_pos h1, if_pos h2]
  · intro h1 h2 h3
    rw [processLines, if_pos h1, if_neg h2, h3]
  · intro ht s hs
    rw [dispatch, if_pos ht, hs]
  · intro ht
    have hne : ¬ ev.type = "reasoning" := by
      rw [ht]
      decide
    rw [dispatch, if_neg hne, if_pos ht]
  · intro ht
    have hne1 : ¬ ev.type = "reasoning" := by
      rw [ht]
      decide
    have hne2 : ¬ ev.type = "complete" := by
      rw [ht]
      decide
    rw [dispatch, if_neg hne1, if_neg hne2, if_pos ht]
  · rw [streamChunks]
  · intro h readErr
    simp only [chatStream]
    rw [if_pos h]

/-- C10: `chatStream` is a total function of the transport outcome (it
never throws): a failed fetch, a non-OK status, and a missing body each
produce exactly the one `onError`; a read failure mid-stream appends
exactly one `onError` after the callbacks already made; an unparsable
`data:` frame is skipped without any callback and without ending the
stream; and a body that ends with no sentinel and only `reasoning`
frames resolves normally, with every callback an `onStep` — neither
`onComplete` nor `onError` is invoked. -/
theorem chatStream_errors (parse : String → Option StreamEvent)
    (msg : String) (status : ℕ) (chunks : List String) (line : String)
    (rest : List String) :
    (chatStream parse (.fetchError msg) = [.onError msg]) ∧
    (chatStream parse (.notOk status)
      = [.onError ("API Error: " ++ toString status)]) ∧
    (chatStream parse .noBody = [.onError "No response body"]) ∧
    ((streamChunks parse "" chunks).2 = false →
      chatStream parse (.body chunks (some msg))
        = (streamChunks parse "" chunks).1 ++ [.onError msg]) ∧
    (line.startsWith "data: " = true → (line.drop 6).trim ≠ "[DONE]" →
      parse ((line.drop 6).trim) = none →
      processLines parse (line :: rest) = processLines parse rest) ∧
    ((∀ s ev, parse s = some ev → ev.type = "reasoning") →
      (streamChunks parse "" chunks).2 = false →
      chatStream parse (.body chunks none) = (streamChunks parse "" chunks).1 ∧
      ∀ c ∈ chatStream parse (.body chunks none), ∃ s, c = Callback.onStep s) := by
    refine ⟨rfl, rfl, rfl, ?_, ?_, ?_⟩
    · intro h
      rw [chatStream, if_neg (by simp [h])]
    · intro h1 h2 h3
      rw [processLines, if_pos h1, if_neg h2, h3]
    · intro hp h
      have he : chatStream parse (.body chunks none)
          = (streamChunks parse "" chunks).1 := by
        rw [chatStream, if_neg (by simp [h])]
      refine ⟨he, ?_⟩
      rw [he]
      exact streamChunks_onStep parse hp chunks ""

theorem normScore_bounds (hi s : ℚ) :
    0 ≤ normScore hi s ∧ normScore hi s ≤ 1 := by
  unfold normScore
  split
  · exact ⟨le_refl 0, zero_le_one⟩
  · exact ⟨le_min zero_le_one (le_max_left 0 _), min_le_left 1 _⟩

theorem rankSource_source {w : ℚ} {src : FusionSource} {inp : SourceInput}
    {r : RankedResult} (h : r ∈ rankSource w src inp) : r.source = src := by
  unfold rankSource at h
  rcases List.mem_map.mp h with ⟨p, _, rfl⟩
  rfl

theorem rankSource_combined {w : ℚ} {src : FusionSource} {inp : SourceInput}
    {r : RankedResult} (hw : 0 ≤ w) (h : r ∈ rankSource w src inp) :
    0 ≤ r.combined ∧ r.combined ≤ w := by
  unfold rankSource at h
  rcases List.mem_map.mp h with ⟨p, _, rfl⟩
  constructor
  · exact mul_nonneg hw (normScore_bounds _ _).1
  · calc w * normScore (maxScore inp.results) p.2.score
        ≤ w * 1 := mul_le_mul_of_nonneg_left (normScore_bounds _ _).2 hw
      _ = w := mul_one w

theorem rankSource_ne_nil {w : ℚ} {src : FusionSource} {inp : SourceInput}
    (h : inp.results ≠ []) : rankSource w src inp ≠ [] := by
  intro hcon
  apply h
  have hlen := congrArg List.length hcon
  simp only [rankSource, List.length_map, List.enum_length,
    List.length_nil] at hlen
  exact List.eq_nil_of_length_eq_zero hlen

theorem diversityFloor_subset {g v l : SourceInput}
    {sorted : List RankedResult} {r : RankedResult}
    (h : r ∈ diversityFloor g v l sorted) : r ∈ sorted := by
  unfold diversityFloor at h
  rcases List.mem_filterMap.mp h with ⟨a, _, hfa⟩
  split at hfa
  · cases hfa
  · exact List.mem_of_find?_eq_some hfa

theorem diversityFloor_covers {src : FusionSource} {inp g v l : SourceInput}
    {sorted : List RankedResult}
    (hpair : (src, inp)
      ∈ [(FusionSource.graph, g), (FusionSource.vector, v),
        (FusionSource.live, l)])
    (hfail : inp.failed = false)
    (hex : ∃ x ∈ sorted, x.source = src) :
    ∃ r ∈ diversityFloor g v l sorted, r.source = src := by
  have hsome : (bestOf src sorted).isSome = true := by
    unfold bestOf
    apply List.find?_isSome.mpr
    rcases hex with ⟨x, hx, hxs⟩
    exact ⟨x, hx, decide_eq_true hxs⟩
  rcases Option.isSome_iff_exists.mp hsome with ⟨r, hr⟩
  have hr' : List.find? (fun x => decide (x.source = src)) sorted = some r := by
    rw [← hr]
    rfl
  refine ⟨r, ?_, ?_⟩
  · apply List.mem_filterMap.mpr
    refine ⟨(src, inp), hpair, ?_⟩
    rw [if_neg (by simp [hfail])]
    exact hr
  · have hpred := List.find?_some hr'
    simp only [decide_eq_true_eq] at hpred
    exact hpred

theorem mem_fuse_of_mem_floor {cfg : FusionConfig} {g v l : SourceInput}
    {r : RankedResult} (h : r ∈ fuseFloor cfg g v l) : r ∈ fuse cfg g v l := by
  unfold fuse
  exact mem_sortRanked.mpr (List.mem_append_left _ h)

theorem mem_fuseAll_of_mem_fuse {cfg : FusionConfig} {g v l : SourceInput}
    {r : RankedResult} (h : r ∈ fuse cfg g v l) : r ∈ fuseAll cfg g v l := by
  unfold fuse at h
  rcases List.mem_append.mp (mem_sortRanked.mp h) with h | h
  · exact mem_sortRanked.mp (diversityFloor_subset h)
  · unfold fuseRest at h
    exact mem_sortRanked.mp (List.mem_filter.mp (List.mem_of_mem_take h)).1

/-- C4: for all three source inputs and any configuration with
nonnegative weights and a cap of at least 3, the fused evidence is
sorted by non-increasing combined score, capped at `cfg.maxResults`,
contains at least one result from every non-failed source that returned
at least one result (diversity floor), and every combined score is the
source's weight times a normalized score in `[0,1]`; the default
configuration uses weights graph 0.4, vector 0.35, live 0.25 and cap
10. -/
theorem fuse_spec (cfg : FusionConfig) (g v l : SourceInput)
    (hg : 0 ≤ cfg.wGraph) (hv : 0 ≤ cfg.wVector) (hl : 0 ≤ cfg.wLive)
    (hmax : 3 ≤ cfg.maxResults) :
    FusionGuarantees cfg g v l ∧
    defaultFusionConfig.wGraph = 2 / 5 ∧
    defaultFusionConfig.wVector = 7 / 20 ∧
    defaultFusionConfig.wLive = 1 / 4 ∧
    defaultFusionConfig.maxResults = 10 := by
  refine ⟨⟨?_, ?_, ?_, ?_, ?_, ?_⟩, rfl, rfl, rfl, rfl⟩
  · exact (sorted_sortRanked _).imp rankRel_combined
  · unfold fuse
    rw [length_sortRanked, List.length_append]
    have h3 : (fuseFloor cfg g v l).length ≤ 3 := by
      unfold fuseFloor diversityFloor
      exact List.length_filterMap_le _ _
    have hrest : (fuseRest cfg g v l).length
        ≤ cfg.maxResults - (fuseFloor cfg g v l).length := by
      unfold fuseRest
      exact List.length_take_le _ _
    omega
  · intro hfail hne
    have hx : ∃ x ∈ fuseSorted cfg g v l, x.source = FusionSource.graph := by
      rcases List.exists_mem_of_ne_nil _
        (@rankSource_ne_nil cfg.wGraph FusionSource.graph g hne) with ⟨x, hx⟩
      refine ⟨x, ?_, rankSource_source hx⟩
      unfold fuseSorted
      apply mem_sortRanked.mpr
      unfold fuseAll
      exact List.mem_append_left _ (List.mem_append_left _ hx)
    rcases diversityFloor_covers (List.mem_cons_self _ _) hfail hx
      with ⟨r, hr, hrs⟩
    exact ⟨r, mem_fuse_of_mem_floor hr, hrs⟩
  · intro hfail hne
    have hx : ∃ x ∈ fuseSorted cfg g v l, x.source = FusionSource.vector := by
      rcases List.exists_mem_of_ne_nil _
        (@rankSource_ne_nil cfg.wVector FusionSource.vector v hne) with ⟨x, hx⟩
      refine ⟨x, ?_, rankSource_source hx⟩
      unfold fuseSorted
      apply mem_sortRanked.mpr
      unfold fuseAll
      exact List.mem_append_left _ (List.mem_append_right _ hx)
    rcases diversityFloor_covers
      (List.mem_cons_of_mem _ (List.mem_cons_self _ _)) hfail hx
      with ⟨r, hr, hrs⟩
    exact ⟨r, mem_fuse_of_mem_floor hr, hrs⟩
  · intro hfail hne
    have hx : ∃ x ∈ fuseSorted cfg g v l, x.source = FusionSource.live := by
      rcases List.exists_mem_of_ne_nil _
        (@rankSource_ne_nil cfg.wLive FusionSource.live l hne) with ⟨x, hx⟩
      refine ⟨x, ?_, rankSource_source hx⟩
      unfold fuseSorted
      apply mem_sortRanked.mpr
      unfold fuseAll
      exact List.mem_append_right _ hx
    rcases diversityFloor_covers
      (List.mem_cons_of_mem _ (List.mem_cons_of_mem _ (List.mem_cons_self _ _)))
      hfail hx with ⟨r, hr, hrs⟩
    exact ⟨r, mem_fuse_of_mem_floor hr, hrs⟩
  · intro r hr
    rcases List.mem_append.mp (mem_fuseAll_of_mem_fuse hr) with h | h
    · rcases List.mem_append.mp h with h | h
      · have hs := rankSource_source h
        have hb := rankSource_combined hg h
        rw [hs]
        exact hb
      · have hs := rankSource_source h
        have hb := rankSource_combined hv h
        rw [hs]
        exact hb
    · have hs := rankSource_source h
      have hb := rankSource_combined hl h
      rw [hs]
      exact hb

/-- Witness for C4 at the default configuration and concrete inputs. -/
theorem fuse_spec_witness :
    ((0 : ℚ) ≤ defaultFusionConfig.wGraph ∧
      (0 : ℚ) ≤ defaultFusionConfig.wVector ∧
      (0 : ℚ) ≤ defaultFusionConfig.wLive ∧
      3 ≤ defaultFusionConfig.maxResults) ∧
    FusionGuarantees defaultFusionConfig
      ⟨[⟨"g1", "g1", 9⟩, ⟨"g2", "g2", 5⟩], false⟩
      ⟨[⟨"v1", "v1", 1 / 2⟩], false⟩ ⟨[⟨"l1", "l1", 1⟩], false⟩ :=
  ⟨⟨by norm_num [defaultFusionConfig], by norm_num [defaultFusionConfig],
    by norm_num [defaultFusionConfig], by norm_num [defaultFusionConfig]⟩,
  (fuse_spec defaultFusionConfig
      ⟨[⟨"g1", "g1", 9⟩, ⟨"g2", "g2", 5⟩], false⟩
      ⟨[⟨"v1", "v1", 1 / 2⟩], false⟩ ⟨[⟨"l1", "l1", 1⟩], false⟩
      (by norm_num [defaultFusionConfig]) (by norm_num [defaultFusionConfig])
      (by norm_num [defaultFusionConfig])
      (by norm_num [defaultFusionConfig])).1⟩

/-- C5 counterexample: the third source tag in `types/index.ts` is
`mcp_tool`, not `live`, and the type places no `[0,1]` bound on
`confidence` — a well-typed `RetrievalResult` exists whose tag is not
among graph/vector/live and whose confidence exceeds 1. -/
theorem retrievalSource_live_refuted :
    ("mcp_tool" ∈ retrievalSourceTags ∧ "mcp_tool" ∉ specSourceTags ∧
      "live" ∉ retrievalSourceTags) ∧
    (∃ r : RetrievalResult,
      r.source.str ∉ specSourceTags ∧ ¬ r.confidence ≤ 1) :=
  ⟨⟨by decide, by decide, by decide⟩,
    ⟨⟨.mcp_tool, "t", "c", [], 2, none⟩, by decide, by norm_num⟩⟩

/-- C5 (amended): every `RetrievalResult` carries a source tag that is
one of exactly the three values graph, vector, mcp_tool, together with a
title, content, a numeric confidence score, free-form metadata, and an
optional raw payload. -/
theorem retrievalResult_source_tags (r : RetrievalResult) :
    (r.source = .graph ∨ r.source = .vector ∨ r.source = .mcp_tool) ∧
    r.source.str ∈ retrievalSourceTags ∧
    retrievalSourceTags = ["graph", "vector", "mcp_tool"] := by
  have h : ∀ s : SourceTag,
      (s = .graph ∨ s = .vector ∨ s = .mcp_tool) ∧
        s.str ∈ retrievalSourceTags := by
    intro s
    cases s with
    | graph => exact ⟨Or.inl rfl, by decide⟩
    | vector => exact ⟨Or.inr (Or.inl rfl), by decide⟩
    | mcp_tool => exact ⟨Or.inr (Or.inr rfl), by decide⟩
  exact ⟨(h r.source).1, (h r.source).2, rfl⟩

/-- C6 counterexample: the `DiagnosticResponse` type admits a path with
two root-flagged steps, so "exactly one root step" is not an invariant
of every `DiagnosticPath`; on such a path `DiagnosticCard` renders only
the first root-flagged step as the root, leaving the other root-flagged
step unrendered as root. -/
theorem diagnosticPath_unique_root_refuted :
    ∃ d : DiagnosticResponse,
      (d.path.filter (fun p => p.is_root)).length = 2 ∧
      ∃ s, rootNode d = some s ∧ ∃ t ∈ d.path, t.is_root = true ∧ t ≠ s := by
  refine ⟨⟨[⟨"s1", "graph", "t1", "d1", .info, true, false, .log, ""⟩,
    ⟨"s2", "vector", "t2", "d2", .info, true, true, .log, ""⟩], "fix", 1⟩,
    by decide, ⟨"s1", "graph", "t1", "d1", .info, true, false, .log, ""⟩,
    by decide, ⟨"s2", "vector", "t2", "d2", .info, true, true, .log, ""⟩,
    by decide, by decide, by decide⟩

/-- C6 (amended): `DiagnosticCard` renders the first root-flagged step of
the path (when one exists) as the root node — in particular, when the
path contains exactly one root-flagged step, that step is the rendered
root — and renders exactly the parallel-flagged steps as the
corroborating leaves; the type itself does not force a unique root. -/
theorem diagnosticCard_render (d : DiagnosticResponse) (s : DiagnosticStep) :
    (∀ t ∈ leafNodes d, t.is_parallel = true) ∧
    (∀ t ∈ d.path, t.is_parallel = true → t ∈ leafNodes d) ∧
    (s ∈ d.path → s.is_root = true →
      (∀ t ∈ d.path, t.is_root = true → t = s) → rootNode d = some s) ∧
    (∀ t, rootNode d = some t → t ∈ d.path ∧ t.is_root = true) ∧
    (rootNode d = none → ∀ t ∈ d.path, t.is_root = false) := by
  refine ⟨?_, ?_, ?_, ?_, ?_⟩
  · intro t ht
    exact (List.mem_filter.mp ht).2
  · intro t ht hp
    exact List.mem_filter.mpr ⟨ht, hp⟩
  · intro hs hroot huniq
    rcases hfind : rootNode d with _ | t
    · unfold rootNode at hfind
      exact absurd hroot (List.find?_eq_none.mp hfind s hs)
    · have ht : t ∈ d.path := List.mem_of_find?_eq_some hfind
      have htr : t.is_root = true := List.find?_some hfind
      rw [huniq t ht htr]
  · intro t ht
    exact ⟨List.mem_of_find?_eq_some ht, List.find?_some ht⟩
  · intro hnone t ht
    unfold rootNode at hnone
    exact Bool.not_eq_true _ ▸ List.find?_eq_none.mp hnone t ht

/-- C8 counterexample: `handleComplete` follows JavaScript truthiness,
not mere presence — a `complete` frame that carries an empty
`clarification_question`, an empty `response` and an empty `thread_id`
yields a plain-text message reading `No response received.` (not a
clarification message with the carried question, nor the carried empty
response), and the empty `thread_id` is not stored. -/
theorem handleComplete_truthiness_refuted :
    handleComplete ⟨"", [], true, none, [], true⟩
        ⟨"complete", none, some "", some "", none, none, some "", none⟩ 0 "t"
      = ⟨"", [⟨1, .assistant, "No response received.", "t", none, none⟩],
          false, none, [], false⟩ ∧
    (StreamEvent.mk "complete" none (some "") (some "") none none (some "")
      none).thread_id = some "" ∧
    (StreamEvent.mk "complete" none (some "") (some "") none none (some "")
      none).response = some "" ∧
    (StreamEvent.mk "complete" none (some "") (some "") none none (some "")
      none).clarification_question = some "" :=
  ⟨by decide, rfl, rfl, rfl⟩

/-- C8 (amended): every `complete` frame appends exactly one assistant
message, discriminated on the payload: a diagnostic message when the
frame carries a diagnostic, else a clarification message when it carries
a non-empty `clarification_question`, else a plain-text message with the
frame's response (or `No response received.` when the response is absent
or empty); a non-empty `thread_id` is stored and sent with every
subsequent query on the thread. -/
theorem handleComplete_spec (st : ChatState) (event : StreamEvent)
    (nowId : ℤ) (ts : String) :
    (∃ m : Message, m.role = .assistant ∧
      (handleComplete st event nowId ts).messages = st.messages ++ [m]) ∧
    (∀ d, event.diagnostic = some d →
      (handleComplete st event nowId ts).messages = st.messages ++
        [{ id := nowId + 1, role := .assistant
           content := orElseStr event.response ""
           timestamp := ts, kind := some .diagnostic, diagnostic := some d }]) ∧
    (event.diagnostic = none → optTruthy event.clarification_question = true →
      (handleComplete st event nowId ts).messages = st.messages ++
        [{ id := nowId + 1, role := .assistant
           content := (event.clarification_question).getD ""
           timestamp := ts }]) ∧
    (event.diagnostic = none → optTruthy event.clarification_question = false →
      (handleComplete st event nowId ts).messages = st.messages ++
        [{ id := nowId + 1, role := .assistant
           content := orElseStr event.response "No response received."
           timestamp := ts }]) ∧
    (optTruthy event.thread_id = true →
      (handleComplete st event nowId ts).threadId = event.thread_id) ∧
    (optTruthy event.thread_id = false →
      (handleComplete st event nowId ts).threadId = st.threadId) ∧
    ((handleComplete st event nowId ts).isLoading = false) ∧
    (∀ tid nowId2 ts2 st2 req,
      (handleComplete st event nowId ts).threadId = some tid → tid ≠ "" →
      handleSendMessage (handleComplete st event nowId ts) nowId2 ts2
        = (st2, some req) →
      req.thread_id = some tid) := by
  refine ⟨?_, ?_, ?_, ?_, ?_, ?_, ?_, ?_⟩
  · rcases hd : event.diagnostic with _ | d
    · by_cases hc : optTruthy event.clarification_question
      · refine ⟨Message.mk (nowId + 1) .assistant
          ((event.clarification_question).getD "") ts none none, rfl, ?_⟩
        unfold handleComplete
        rw [hd, if_pos hc]
        split <;> rfl
      · refine ⟨Message.mk (nowId + 1) .assistant
          (orElseStr event.response "No response received.") ts none none,
          rfl, ?_⟩
        unfold handleComplete
        rw [hd, if_neg (by simp [hc])]
        split <;> rfl
    · refine ⟨Message.mk (nowId + 1) .assistant (orElseStr event.response "")
        ts (some .diagnostic) (some d), rfl, ?_⟩
      unfold handleComplete
      rw [hd]
      split <;> rfl
  · intro d hd
    unfold handleComplete
    rw [hd]
    split <;> rfl
  · intro hd hc
    unfold handleComplete
    rw [hd, if_pos hc]
    split <;> rfl
  · intro hd hc
    unfold handleComplete
    rw [hd, if_neg (by simp [hc])]
    split <;> rfl
  · intro ht
    simp [handleComplete, ht]
  · intro ht
    simp [handleComplete, ht]
  · simp [handleComplete]
  · intro tid nowId2 ts2 st2 req htid hne hsend
    unfold handleSendMessage at hsend
    split at hsend
    · rw [Prod.mk.injEq] at hsend
      exact absurd hsend.2 (by simp)
    · rw [Prod.mk.injEq] at hsend
      obtain rfl := Option.some.inj hsend.2
      have htr : optTruthy (some tid) = true := by
        simp [optTruthy, hne]
      simp [htid, htr]

end HRAG
